import Mathlib

/-!
Verification of the keymap registry module (`src/keymaps/index.js`).

The module keeps an identifier-to-binding map (`keymaps`), forwards chord
strings to an external listening engine (`keymaster`), resolves handlers at
fire time through the command registry, and broadcasts lifecycle events on
the event bus (`em.trigger`).

Shallow embedding:
* JavaScript handler values (`string | function | {run} | undefined`) become
  the inductive `HVal`; functions and run-capable objects are identified by a
  numeric token so that "which handler was invoked" is observable.
* The `keymaps` object becomes an association list with JavaScript property
  semantics (`lookupB`, `objSet`, `eraseKey`).
* The listening engine becomes a list of (chord-string, callback) pairs:
  `keymaster(keys, cb)` appends, `keymaster.unbind(keys)` drops every entry
  for that chord string, firing a chord invokes every matching callback in
  registration order (the spec treats the engine at exactly this boundary).
* A callback is the closure from `add`: it captures the binding `id` and a
  mutable `handler` variable; the line
  `handler = isString(handler) ? cmd.get(handler) : handler` is modelled by
  the callback state update in `fireCallback`.
* Side effects (bus triggers, handler invocations, a thrown TypeError when a
  non-callable is invoked) are collected in an `Eff` trace, in program order.
* The command registry contents at a given firing are a function
  `String → HVal` passed to the fire operations (`cmd.get(handler)`); the
  module captures the registry object once, but lookups go through it at
  fire time, so contents may differ between firings.
-/

namespace Keymaps

/-- A JavaScript handler value: a string (command id), a function (token),
a run-capable object (token), or `undefined` (e.g. a failed registry lookup). -/
inductive HVal where
  | vstr (s : String)
  | vfun (n : Nat)
  | vobj (n : Nat)
  | vundef
deriving DecidableEq, Repr

/-- The keymap object `{ id, keys, handler }` built by `add`. -/
structure Binding where
  id : String
  keys : String
  handler : HVal
deriving DecidableEq, Repr

/-- The closure passed to `keymaster(keys, cb)`: it captures the binding id
and the mutable `handler` variable (reassigned on each firing by
`handler = isString(handler) ? cmd.get(handler) : handler`). -/
structure Callback where
  id : String
  handler : HVal
deriving DecidableEq, Repr

/-- Payload of an event-bus trigger. -/
inductive Payload where
  | pBinding (b : Binding)
  | pEmit (id shortcut : String) (e : Nat)
deriving DecidableEq, Repr

/-- One observable side effect, in program order. -/
inductive Eff where
  | busTrigger (name : String) (p : Payload)
  | invokeRun (n : Nat)
  | invokeFn (n : Nat)
  | throwTypeError
deriving DecidableEq, Repr

/-- Module state: the `keymaps` object and the listening-engine bindings. -/
structure KState where
  keymaps : List (String × Binding)
  engine : List (String × Callback)
deriving DecidableEq, Repr

/-- State at module construction: the map is empty and nothing is bound. -/
def initState : KState := ⟨[], []⟩

/-- JavaScript property read `keymaps[id]` (keys are unique in an object). -/
def lookupB : List (String × Binding) → String → Option Binding
  | [], _ => none
  | p :: rest, id => if p.1 = id then some p.2 else lookupB rest id

/-- JavaScript property write `keymaps[id] = v`. -/
def objSet : List (String × Binding) → String → Binding → List (String × Binding)
  | [], k, v => [(k, v)]
  | p :: rest, k, v => if p.1 = k then (k, v) :: rest else p :: objSet rest k v

/-- JavaScript `delete keymaps[id]`. -/
def eraseKey : List (String × Binding) → String → List (String × Binding)
  | [], _ => []
  | p :: rest, id => if p.1 = id then eraseKey rest id else p :: eraseKey rest id

/-- `keymaster.unbind(keys)`: drops every callback bound to that chord string. -/
def unbind : List (String × Callback) → String → List (String × Callback)
  | [], _ => []
  | p :: rest, keys => if p.1 = keys then unbind rest keys else p :: unbind rest keys

/-- `get(id)`. -/
def getOp (s : KState) (id : String) : Option Binding :=
  lookupB s.keymaps id

/-- `getAll()` returns the live map. -/
def getAllOp (s : KState) : List (String × Binding) :=
  s.keymaps

/-- `remove(id)`: looks the binding up, and if present deletes the map entry,
unbinds its stored `keys` from the engine, triggers `keymap:remove` with the
removed binding, and returns it; otherwise it does nothing and returns
`undefined`. -/
def removeOp (s : KState) (id : String) : KState × List Eff × Option Binding :=
  match lookupB s.keymaps id with
  | none => (s, [], none)
  | some km =>
      (⟨eraseKey s.keymaps id, unbind s.engine km.keys⟩,
       [Eff.busTrigger "keymap:remove" (Payload.pBinding km)],
       some km)

/-- The unconditional tail of `add`: store the binding in the map, register
the chord with the engine together with the dispatch callback, trigger
`keymap:add` with the new binding, and return it. -/
def installBind (s : KState) (id keys : String) (handler : HVal) :
    KState × List Eff × Binding :=
  let keymap : Binding := ⟨id, keys, handler⟩
  (⟨objSet s.keymaps id keymap, s.engine ++ [(keys, ⟨id, handler⟩)]⟩,
   [Eff.busTrigger "keymap:add" (Payload.pBinding keymap)],
   keymap)

/-- `add(id, keys, handler)`: `pk && this.remove(id)` first, then install. -/
def addOp (s : KState) (id keys : String) (handler : HVal) :
    KState × List Eff × Binding :=
  let pr := if (getOp s id).isSome then removeOp s id else (s, [], none)
  let ib := installBind pr.1 id keys handler
  (ib.1, pr.2.1 ++ ib.2.1, ib.2.2)

/-- `isString(handler) ? cmd.get(handler) : handler`, against the registry
contents `reg` at the moment of firing. -/
def resolveHandler (reg : String → HVal) (h : HVal) : HVal :=
  match h with
  | HVal.vstr s => reg s
  | h => h

/-- Whether `typeof handler == 'object' ? handler.run(editor) : handler(editor)`
succeeds: an object is run, a function is called, anything else throws. -/
def isInvocable : HVal → Bool
  | HVal.vfun _ => true
  | HVal.vobj _ => true
  | _ => false

/-- The invocation effect of `typeof handler == 'object' ? handler.run(editor)
: handler(editor)`. -/
def invokeEff : HVal → Eff
  | HVal.vobj n => Eff.invokeRun n
  | HVal.vfun n => Eff.invokeFn n
  | _ => Eff.throwTypeError

/-- One firing of the dispatch callback installed by `add`. The resolved
value is written back into the closure variable `handler` (the caching
reassignment); if invocation throws, the two emit triggers are not reached. -/
def fireCallback (reg : String → HVal) (cb : Callback) (shortcut : String)
    (e : Nat) : Callback × List Eff :=
  let h := resolveHandler reg cb.handler
  let effs :=
    if isInvocable h then
      [invokeEff h,
       Eff.busTrigger "keymap:emit" (Payload.pEmit cb.id shortcut e),
       Eff.busTrigger ("keymap:emit:" ++ cb.id) (Payload.pEmit cb.id shortcut e)]
    else [invokeEff h]
  (⟨cb.id, h⟩, effs)

/-- The listening engine fires a chord: every callback registered for that
chord string runs in registration order; each callback's closure state is
updated in place. -/
def fireEngine (reg : String → HVal) (chord shortcut : String) (e : Nat) :
    List (String × Callback) → List (String × Callback) × List Eff
  | [] => ([], [])
  | p :: rest =>
      let tail := fireEngine reg chord shortcut e rest
      if p.1 = chord then
        let fc := fireCallback reg p.2 shortcut e
        ((p.1, fc.1) :: tail.1, fc.2 ++ tail.2)
      else (p :: tail.1, tail.2)

/-- An `add` call as data: (id, keys, handler). -/
abbrev AddCall := String × String × HVal

/-- The binding an `add` call produces. -/
def mkBinding (c : AddCall) : Binding := ⟨c.1, c.2.1, c.2.2⟩

/-- Run a sequence of `add` calls, discarding the event traces. -/
def runAdds (s : KState) : List AddCall → KState
  | [] => s
  | c :: rest => runAdds (addOp s c.1 c.2.1 c.2.2).1 rest

/-- The binding created by the most recent `add` call for `id` in the
sequence, if any. -/
def lastAddFor : List AddCall → String → Option Binding
  | [], _ => none
  | c :: rest, id =>
      match lastAddFor rest id with
      | some b => some b
      | none => if c.1 = id then some (mkBinding c) else none

/-- The `defaults` block of `configDef`, in its mapping-iteration order;
each handler is the command-id string equal to the binding's own id. -/
def configDefDefaults : List AddCall :=
  [("core:undo", "⌘+z, ctrl+z", HVal.vstr "core:undo"),
   ("core:redo", "⌘+shift+z, ctrl+shift+z", HVal.vstr "core:redo"),
   ("core:copy", "⌘+c, ctrl+c", HVal.vstr "core:copy"),
   ("core:paste", "⌘+v, ctrl+v", HVal.vstr "core:paste")]

/-- `init(opts)`: `config = { ...configDef, ...opts }` — a caller-supplied
`defaults` replaces the built-in block wholesale, otherwise the built-in one
is kept. `init` touches no binding state. -/
def initConfig (optsDefaults : Option (List AddCall)) : List AddCall :=
  optsDefaults.getD configDefDefaults

/-- `onLoad()`: installs every configured default via `add`, in mapping
iteration order. -/
def onLoad (defaults : List AddCall) (s : KState) : KState :=
  runAdds s defaults

/-! ### Association-list lemmas -/

theorem lookupB_objSet (m : List (String × Binding)) (k : String) (v : Binding)
    (id : String) :
    lookupB (objSet m k v) id = if k = id then some v else lookupB m id := by
  induction m with
  | nil => by_cases hki : k = id <;> simp [objSet, lookupB, hki]
  | cons p rest ih =>
      by_cases hpk : p.1 = k
      · by_cases hki : k = id <;> simp [objSet, lookupB, hpk, hki]
      · by_cases hpi : p.1 = id
        · have hki : ¬ k = id := fun h => hpk (hpi.trans h.symm)
          have hik : ¬ id = k := fun h => hki h.symm
          simp [objSet, lookupB, hpk, hpi, hki, hik]
        · simp [objSet, lookupB, hpk, hpi, ih]

theorem lookupB_eraseKey (m : List (String × Binding)) (rid id : String) :
    lookupB (eraseKey m rid) id = if rid = id then none else lookupB m id := by
  induction m with
  | nil => simp [eraseKey, lookupB]
  | cons p rest ih =>
      by_cases hpr : p.1 = rid
      · by_cases hri : rid = id
        · subst hri
          simp [eraseKey, hpr, ih]
        · have hpi : ¬ p.1 = id := fun h => hri (hpr.symm.trans h)
          simp [eraseKey, lookupB, hpr, hri, hpi, ih]
      · by_cases hpi : p.1 = id
        · have hri : ¬ rid = id := fun h => hpr (hpi.trans h.symm)
          have hir : ¬ id = rid := fun h => hri h.symm
          simp [eraseKey, lookupB, hpr, hpi, hri, hir]
        · simp [eraseKey, lookupB, hpr, hpi, ih]

theorem mem_eraseKey (m : List (String × Binding)) (rid : String)
    (p : String × Binding) (hp : p ∈ eraseKey m rid) : p ∈ m ∧ p.1 ≠ rid := by
  induction m with
  | nil => simp [eraseKey] at hp
  | cons q rest ih =>
      by_cases hqr : q.1 = rid
      · simp only [eraseKey, if_pos hqr] at hp
        exact ⟨List.mem_cons_of_mem q (ih hp).1, (ih hp).2⟩
      · simp only [eraseKey, if_neg hqr] at hp
        rcases List.mem_cons.mp hp with hpq | hp2
        · subst hpq; exact ⟨List.mem_cons_self p rest, hqr⟩
        · exact ⟨List.mem_cons_of_mem q (ih hp2).1, (ih hp2).2⟩

theorem mem_unbind (l : List (String × Callback)) (keys : String)
    (p : String × Callback) (hp : p ∈ unbind l keys) : p ∈ l ∧ p.1 ≠ keys := by
  induction l with
  | nil => simp [unbind] at hp
  | cons q rest ih =>
      by_cases hqk : q.1 = keys
      · simp only [unbind, if_pos hqk] at hp
        exact ⟨List.mem_cons_of_mem q (ih hp).1, (ih hp).2⟩
      · simp only [unbind, if_neg hqk] at hp
        rcases List.mem_cons.mp hp with hpq | hp2
        · subst hpq; exact ⟨List.mem_cons_self p rest, hqk⟩
        · exact ⟨List.mem_cons_of_mem q (ih hp2).1, (ih hp2).2⟩

theorem objSet_of_absent (m : List (String × Binding)) (k : String) (v : Binding)
    (hm : lookupB m k = none) : objSet m k v = m ++ [(k, v)] := by
  induction m with
  | nil => simp [objSet]
  | cons p rest ih =>
      by_cases hpk : p.1 = k
      · simp [lookupB, hpk] at hm
      · simp only [lookupB, if_neg hpk] at hm
        simp [objSet, hpk, ih hm]

theorem lookupB_eq_none_iff (m : List (String × Binding)) (id : String) :
    lookupB m id = none ↔ id ∉ m.map Prod.fst := by
  induction m with
  | nil => simp [lookupB]
  | cons p rest ih =>
      simp only [List.map_cons, List.mem_cons, not_or]
      by_cases hpi : p.1 = id
      · simp [lookupB, hpi]
      · have hip : ¬ id = p.1 := fun h => hpi h.symm
        simp [lookupB, hpi, hip, ih]

theorem mem_keys_eraseKey (m : List (String × Binding)) (rid a : String)
    (ha : a ∈ (eraseKey m rid).map Prod.fst) : a ∈ m.map Prod.fst := by
  rcases List.mem_map.mp ha with ⟨p, hp, hpa⟩
  exact List.mem_map.mpr ⟨p, (mem_eraseKey m rid p hp).1, hpa⟩

theorem nodup_keys_eraseKey (m : List (String × Binding)) (rid : String)
    (hm : (m.map Prod.fst).Nodup) : ((eraseKey m rid).map Prod.fst).Nodup := by
  induction m with
  | nil => simp [eraseKey]
  | cons p rest ih =>
      simp only [List.map_cons, List.nodup_cons] at hm
      by_cases hpr : p.1 = rid
      · simp only [eraseKey, if_pos hpr]
        exact ih hm.2
      · simp only [eraseKey, if_neg hpr, List.map_cons, List.nodup_cons]
        exact ⟨fun hc => hm.1 (mem_keys_eraseKey rest rid p.1 hc), ih hm.2⟩

/-! ### Operation-level lemmas -/

theorem removeOp_absent (s : KState) (id : String) (h : getOp s id = none) :
    removeOp s id = (s, [], none) := by
  simp [removeOp, getOp] at h ⊢
  simp [h]

theorem removeOp_present (s : KState) (id : String) (km : Binding)
    (h : getOp s id = some km) :
    removeOp s id =
      (⟨eraseKey s.keymaps id, unbind s.engine km.keys⟩,
       [Eff.busTrigger "keymap:remove" (Payload.pBinding km)], some km) := by
  simp [removeOp, getOp] at h ⊢
  simp [h]

theorem addOp_absent (s : KState) (id keys : String) (hv : HVal)
    (h : getOp s id = none) : addOp s id keys hv = installBind s id keys hv := by
  simp [addOp, h, installBind]

theorem addOp_present (s : KState) (id keys : String) (hv : HVal) (pk : Binding)
    (h : getOp s id = some pk) :
    addOp s id keys hv =
      ((installBind (removeOp s id).1 id keys hv).1,
       (removeOp s id).2.1 ++ (installBind (removeOp s id).1 id keys hv).2.1,
       (installBind (removeOp s id).1 id keys hv).2.2) := by
  simp [addOp, h]

theorem addOp_keymaps (s : KState) (id keys : String) (hv : HVal) :
    (addOp s id keys hv).1.keymaps =
      objSet (if (getOp s id).isSome then eraseKey s.keymaps id else s.keymaps)
        id ⟨id, keys, hv⟩ := by
  cases h : getOp s id with
  | none => simp [addOp_absent s id keys hv h, installBind, h]
  | some km =>
      simp [addOp_present s id keys hv km h, removeOp_present s id km h,
        installBind, h]

theorem addOp_engine (s : KState) (id keys : String) (hv : HVal) :
    (addOp s id keys hv).1.engine =
      (match getOp s id with
       | some pk => unbind s.engine pk.keys
       | none => s.engine) ++ [(keys, (⟨id, hv⟩ : Callback))] := by
  cases h : getOp s id with
  | none => simp [addOp_absent s id keys hv h, installBind]
  | some km =>
      simp [addOp_present s id keys hv km h, removeOp_present s id km h, installBind]

theorem addOp_effs (s : KState) (id keys : String) (hv : HVal) :
    (addOp s id keys hv).2.1 =
      (match getOp s id with
       | some pk => [Eff.busTrigger "keymap:remove" (Payload.pBinding pk)]
       | none => []) ++
      [Eff.busTrigger "keymap:add" (Payload.pBinding ⟨id, keys, hv⟩)] := by
  cases h : getOp s id with
  | none => simp [addOp_absent s id keys hv h, installBind]
  | some km =>
      simp [addOp_present s id keys hv km h, removeOp_present s id km h, installBind]

theorem addOp_ret (s : KState) (id keys : String) (hv : HVal) :
    (addOp s id keys hv).2.2 = ⟨id, keys, hv⟩ := by
  cases h : getOp s id with
  | none => simp [addOp_absent s id keys hv h, installBind]
  | some km => simp [addOp_present s id keys hv km h, installBind]

theorem getOp_addOp (s : KState) (cid k : String) (hv : HVal) (id : String) :
    getOp (addOp s cid k hv).1 id =
      if cid = id then some ⟨cid, k, hv⟩ else getOp s id := by
  show lookupB (addOp s cid k hv).1.keymaps id = _
  rw [addOp_keymaps, lookupB_objSet]
  cases h : getOp s cid with
  | none => simp [h, getOp]
  | some km =>
      simp only [h, Option.isSome_some, if_pos]
      rw [lookupB_eraseKey]
      by_cases hci : cid = id
      · simp [hci]
      · simp [hci, getOp]

theorem nodup_keys_addOp (s : KState) (id keys : String) (hv : HVal)
    (hs : (s.keymaps.map Prod.fst).Nodup) :
    ((addOp s id keys hv).1.keymaps.map Prod.fst).Nodup := by
  rw [addOp_keymaps]
  have hm1 : ((if (getOp s id).isSome then eraseKey s.keymaps id
      else s.keymaps).map Prod.fst).Nodup := by
    by_cases h : (getOp s id).isSome
    · simp only [if_pos h]; exact nodup_keys_eraseKey s.keymaps id hs
    · simp only [if_neg h]; exact hs
  have habs : lookupB (if (getOp s id).isSome then eraseKey s.keymaps id
      else s.keymaps) id = none := by
    cases h : getOp s id with
    | none => simp only [h, Option.isSome_none, Bool.false_eq_true, if_neg]; exact h
    | some km =>
        simp only [h, Option.isSome_some, if_pos]
        rw [lookupB_eraseKey]
        simp
  rw [objSet_of_absent _ _ _ habs]
  rw [List.map_append]
  rw [List.nodup_append]
  refine ⟨hm1, by simp, ?_⟩
  intro a ha hb
  simp only [List.map_cons, List.map_nil, List.mem_singleton] at hb
  subst hb
  exact (lookupB_eq_none_iff _ _).mp habs ha

theorem runAdds_nodup_keys (calls : List AddCall) :
    ∀ s : KState, (s.keymaps.map Prod.fst).Nodup →
      ((runAdds s calls).keymaps.map Prod.fst).Nodup := by
  induction calls with
  | nil => intro s hs; exact hs
  | cons c rest ih =>
      intro s hs
      exact ih _ (nodup_keys_addOp s c.1 c.2.1 c.2.2 hs)

theorem getOp_runAdds (calls : List AddCall) :
    ∀ (s : KState) (id : String),
      getOp (runAdds s calls) id =
        match lastAddFor calls id with
        | some b => some b
        | none => getOp s id := by
  induction calls with
  | nil => intro s id; simp [runAdds, lastAddFor]
  | cons c rest ih =>
      intro s id
      show getOp (runAdds (addOp s c.1 c.2.1 c.2.2).1 rest) id = _
      rw [ih]
      cases hl : lastAddFor rest id with
      | some b => simp [lastAddFor, hl]
      | none =>
          simp only [lastAddFor, hl]
          rw [getOp_addOp]
          by_cases hc : c.1 = id
          · simp [hc, mkBinding]
          · simp [hc]

/-! ### Firing lemmas -/

theorem fireCallback_invocable (reg : String → HVal) (cb : Callback)
    (sc : String) (e : Nat)
    (h : isInvocable (resolveHandler reg cb.handler) = true) :
    fireCallback reg cb sc e =
      (⟨cb.id, resolveHandler reg cb.handler⟩,
       [invokeEff (resolveHandler reg cb.handler),
        Eff.busTrigger "keymap:emit" (Payload.pEmit cb.id sc e),
        Eff.busTrigger ("keymap:emit:" ++ cb.id) (Payload.pEmit cb.id sc e)]) := by
  simp [fireCallback, h]

theorem fireCallback_state (reg : String → HVal) (cb : Callback)
    (sc : String) (e : Nat) :
    (fireCallback reg cb sc e).1 = ⟨cb.id, resolveHandler reg cb.handler⟩ := by
  simp [fireCallback]

theorem fireCallback_head (reg : String → HVal) (cb : Callback)
    (sc : String) (e : Nat) :
    (fireCallback reg cb sc e).2.head? =
      some (invokeEff (resolveHandler reg cb.handler)) := by
  by_cases h : isInvocable (resolveHandler reg cb.handler) = true <;>
    simp [fireCallback, h]

theorem fireEngine_effs (reg : String → HVal) (chord sc : String) (e : Nat)
    (l : List (String × Callback)) :
    (fireEngine reg chord sc e l).2 =
      ((l.filter (fun p => p.1 == chord)).map
        (fun p => (fireCallback reg p.2 sc e).2)).flatten := by
  induction l with
  | nil => simp [fireEngine]
  | cons p rest ih =>
      by_cases hp : p.1 = chord
      · simp [fireEngine, hp, List.filter_cons, ih]
      · simp [fireEngine, hp, List.filter_cons, ih]

/-! ### Claim theorems -/

/-- Claim C1: after any finite sequence of `add` calls, the map returned by
`getAll()` has pairwise-distinct identifiers and the binding stored under any
`id` is exactly the one created by the most recent `add(id, keys, handler)` in
the sequence; moreover `add` on an already-present id is literally the
composition of a full `remove` of the prior binding (map deletion plus
listening-engine unbind, with its `keymap:remove` trigger) followed by the
plain install path. -/
theorem C1_uniqueness_last_add_wins :
    (∀ (calls : List AddCall) (id : String),
      ((getAllOp (runAdds initState calls)).map Prod.fst).Nodup ∧
      getOp (runAdds initState calls) id = lastAddFor calls id) ∧
    (∀ (s : KState) (id keys : String) (hv : HVal),
      (getOp s id).isSome →
      addOp s id keys hv =
        ((installBind (removeOp s id).1 id keys hv).1,
         (removeOp s id).2.1 ++ (installBind (removeOp s id).1 id keys hv).2.1,
         (installBind (removeOp s id).1 id keys hv).2.2)) := by
  constructor
  · intro calls id
    constructor
    · exact runAdds_nodup_keys calls initState (by simp [initState])
    · rw [getOp_runAdds]
      cases lastAddFor calls id <;> simp [getOp, initState, lookupB]
  · intro s id keys hv h
    obtain ⟨pk, hpk⟩ := Option.isSome_iff_exists.mp h
    exact addOp_present s id keys hv pk hpk

/-- Concrete add sequence for the C1 witness: `a` is added twice. -/
def c1Calls : List AddCall :=
  [("a", "ctrl+1", HVal.vfun 1), ("b", "ctrl+2", HVal.vfun 2),
   ("a", "ctrl+3", HVal.vfun 3)]

/-- Concrete state with `a` present, for the supersession part of C1. -/
def c1S : KState :=
  ⟨[("a", ⟨"a", "ctrl+1", HVal.vfun 1⟩)], [("ctrl+1", ⟨"a", HVal.vfun 1⟩)]⟩

theorem C1_uniqueness_last_add_wins_witness :
    getOp (runAdds initState c1Calls) "a" = some ⟨"a", "ctrl+3", HVal.vfun 3⟩ ∧
    addOp c1S "a" "ctrl+9" (HVal.vfun 9) =
      ((installBind (removeOp c1S "a").1 "a" "ctrl+9" (HVal.vfun 9)).1,
       (removeOp c1S "a").2.1 ++
         (installBind (removeOp c1S "a").1 "a" "ctrl+9" (HVal.vfun 9)).2.1,
       (installBind (removeOp c1S "a").1 "a" "ctrl+9" (HVal.vfun 9)).2.2) := by
  constructor
  · rw [(C1_uniqueness_last_add_wins.1 c1Calls "a").2]
    decide
  · exact C1_uniqueness_last_add_wins.2 c1S "a" "ctrl+9" (HVal.vfun 9) (by decide)

/-- Claim C2: `add(x, k1, h1)` then `add(x, k2, h2)` leaves `get(x)` equal to
the binding `{id: x, keys: k2, handler: h2}`, the second call returns that
binding (it is not rejected), and every subscription left on the listening
engine for the chord string `k1` is the freshly installed `k2` one (so when
`k1 ≠ k2` there is none at all — only `k2` fires `h2`). -/
theorem C2_supersession (s : KState) (x k1 k2 : String) (h1 h2 : HVal) :
    getOp (addOp (addOp s x k1 h1).1 x k2 h2).1 x = some ⟨x, k2, h2⟩ ∧
    (addOp (addOp s x k1 h1).1 x k2 h2).2.2 = ⟨x, k2, h2⟩ ∧
    ∀ p ∈ (addOp (addOp s x k1 h1).1 x k2 h2).1.engine,
      p.1 = k1 → p = (k2, (⟨x, h2⟩ : Callback)) := by
  have hget : getOp (addOp s x k1 h1).1 x = some ⟨x, k1, h1⟩ := by
    rw [getOp_addOp]; simp
  refine ⟨by rw [getOp_addOp]; simp, addOp_ret _ _ _ _, ?_⟩
  intro p hp hpk1
  rw [addOp_engine, hget] at hp
  rcases List.mem_append.mp hp with hm | hm
  · exact absurd hpk1 (mem_unbind _ _ p hm).2
  · simpa using hm

theorem C2_supersession_witness :
    getOp (addOp (addOp initState "x" "ctrl+a" (HVal.vfun 1)).1 "x" "ctrl+b"
        (HVal.vfun 2)).1 "x" = some ⟨"x", "ctrl+b", HVal.vfun 2⟩ ∧
    (addOp (addOp initState "x" "ctrl+a" (HVal.vfun 1)).1 "x" "ctrl+b"
        (HVal.vfun 2)).2.2 = ⟨"x", "ctrl+b", HVal.vfun 2⟩ := by
  have h := C2_supersession initState "x" "ctrl+a" "ctrl+b" (HVal.vfun 1)
    (HVal.vfun 2)
  exact ⟨h.1, h.2.1⟩

/-- Claim C5: `add(id, keys, h)` immediately followed by `remove(id)` leaves
`getAll()` without the key `id` and leaves no listening-engine subscription
for the chord string `keys`; and in general the unbind done by `remove` is
keyed by the stored binding's `keys` (recovered from the map before the
deletion), not by `id`. -/
theorem C5_round_trip (s : KState) (id keys : String) (hv : HVal) :
    getOp (removeOp (addOp s id keys hv).1 id).1 id = none ∧
    (∀ p ∈ getAllOp (removeOp (addOp s id keys hv).1 id).1, p.1 ≠ id) ∧
    (∀ p ∈ (removeOp (addOp s id keys hv).1 id).1.engine, p.1 ≠ keys) ∧
    (∀ (s2 : KState) (id2 : String) (km : Binding), getOp s2 id2 = some km →
      (removeOp s2 id2).1.engine = unbind s2.engine km.keys) := by
  have hget : getOp (addOp s id keys hv).1 id = some ⟨id, keys, hv⟩ := by
    rw [getOp_addOp]; simp
  rw [removeOp_present _ _ _ hget]
  refine ⟨?_, ?_, ?_, ?_⟩
  · show lookupB (eraseKey (addOp s id keys hv).1.keymaps id) id = none
    rw [lookupB_eraseKey]; simp
  · intro p hp
    exact (mem_eraseKey _ _ p hp).2
  · intro p hp
    exact (mem_unbind _ _ p hp).2
  · intro s2 id2 km hkm
    rw [removeOp_present _ _ _ hkm]

theorem C5_round_trip_witness :
    getOp (removeOp (addOp initState "a" "ctrl+a" (HVal.vfun 1)).1 "a").1 "a"
      = none := by
  exact (C5_round_trip initState "a" "ctrl+a" (HVal.vfun 1)).1

/-- Claim C7: `remove(id)` on an absent id returns `undefined` and has no
observable side effect (state untouched, no unbind, nothing triggered); on a
present id it deletes the map entry, unbinds the stored `keys`, triggers
exactly one `keymap:remove` carrying the removed binding, returns that
binding, and afterwards the id is gone from the map. -/
theorem C7_remove_idempotent_absent (s : KState) (id : String) :
    (getOp s id = none → removeOp s id = (s, [], none)) ∧
    (∀ km : Binding, getOp s id = some km →
      removeOp s id =
        (⟨eraseKey s.keymaps id, unbind s.engine km.keys⟩,
         [Eff.busTrigger "keymap:remove" (Payload.pBinding km)], some km) ∧
      getOp (removeOp s id).1 id = none) := by
  constructor
  · intro h
    exact removeOp_absent s id h
  · intro km hkm
    refine ⟨removeOp_present s id km hkm, ?_⟩
    rw [removeOp_present s id km hkm]
    show lookupB (eraseKey s.keymaps id) id = none
    rw [lookupB_eraseKey]; simp

theorem C7_remove_idempotent_absent_witness :
    removeOp c1S "missing" = (c1S, [], none) ∧
    removeOp c1S "a" =
      (⟨eraseKey c1S.keymaps "a", unbind c1S.engine "ctrl+1"⟩,
       [Eff.busTrigger "keymap:remove"
         (Payload.pBinding ⟨"a", "ctrl+1", HVal.vfun 1⟩)],
       some ⟨"a", "ctrl+1", HVal.vfun 1⟩) := by
  constructor
  · exact (C7_remove_idempotent_absent c1S "missing").1 (by decide)
  · exact ((C7_remove_idempotent_absent c1S "a").2
      ⟨"a", "ctrl+1", HVal.vfun 1⟩ (by decide)).1

/-- Recognizer for `keymap:add` triggers in an effect trace. -/
def isAddEv : Eff → Bool
  | Eff.busTrigger n _ => n == "keymap:add"
  | _ => false

/-- Claim C9: `add(id, keys, handler)` returns the binding
`{id, keys, handler}`, stores exactly that binding in the map under `id`, and
its effect trace contains exactly one `keymap:add` trigger, carrying the new
binding. -/
theorem C9_add_contract (s : KState) (id keys : String) (hv : HVal) :
    (addOp s id keys hv).2.2 = ⟨id, keys, hv⟩ ∧
    getOp (addOp s id keys hv).1 id = some ⟨id, keys, hv⟩ ∧
    (addOp s id keys hv).2.1.filter isAddEv =
      [Eff.busTrigger "keymap:add" (Payload.pBinding ⟨id, keys, hv⟩)] := by
  refine ⟨addOp_ret _ _ _ _, by rw [getOp_addOp]; simp, ?_⟩
  rw [addOp_effs]
  cases getOp s id <;> simp [isAddEv]

/-- Claim C10: when `add` supersedes an existing binding under `id`, the bus
receives the `keymap:remove` trigger for the old binding strictly before the
`keymap:add` trigger for the new one; a plain `add` of a fresh id triggers
`keymap:add` only. -/
theorem C10_supersession_events (s : KState) (id keys : String) (hv : HVal) :
    (getOp s id = none →
      (addOp s id keys hv).2.1 =
        [Eff.busTrigger "keymap:add" (Payload.pBinding ⟨id, keys, hv⟩)]) ∧
    (∀ pk : Binding, getOp s id = some pk →
      (addOp s id keys hv).2.1 =
        [Eff.busTrigger "keymap:remove" (Payload.pBinding pk),
         Eff.busTrigger "keymap:add" (Payload.pBinding ⟨id, keys, hv⟩)]) := by
  constructor
  · intro h
    rw [addOp_effs, h]
    rfl
  · intro pk h
    rw [addOp_effs, h]
    rfl

theorem C10_supersession_events_witness :
    (addOp initState "a" "ctrl+1" (HVal.vfun 1)).2.1 =
      [Eff.busTrigger "keymap:add"
        (Payload.pBinding ⟨"a", "ctrl+1", HVal.vfun 1⟩)] ∧
    (addOp c1S "a" "ctrl+9" (HVal.vfun 9)).2.1 =
      [Eff.busTrigger "keymap:remove"
        (Payload.pBinding ⟨"a", "ctrl+1", HVal.vfun 1⟩),
       Eff.busTrigger "keymap:add"
        (Payload.pBinding ⟨"a", "ctrl+9", HVal.vfun 9⟩)] := by
  constructor
  · exact (C10_supersession_events initState "a" "ctrl+1" (HVal.vfun 1)).1
      (by decide)
  · exact (C10_supersession_events c1S "a" "ctrl+9" (HVal.vfun 9)).2
      ⟨"a", "ctrl+1", HVal.vfun 1⟩ (by decide)

/-- Recognizer for `keymap:emit` triggers. -/
def isEmitEv : Eff → Bool
  | Eff.busTrigger n _ => n == "keymap:emit"
  | _ => false

/-- Recognizer for per-identifier `keymap:emit:<id>` triggers. -/
def isEmitIdEv (id : String) : Eff → Bool
  | Eff.busTrigger n _ => n == "keymap:emit:" ++ id
  | _ => false

theorem emit_names_ne (id : String) : ("keymap:emit:" ++ id) ≠ "keymap:emit" := by
  intro h
  have hl := congrArg String.length h
  rw [String.length_append] at hl
  have h12 : ("keymap:emit:" : String).length = 12 := rfl
  have h11 : ("keymap:emit" : String).length = 11 := rfl
  rw [h12, h11] at hl
  omega

theorem invokeEff_not_emit (hv : HVal) : isEmitEv (invokeEff hv) = false := by
  cases hv <;> rfl

theorem invokeEff_not_emit_id (id : String) (hv : HVal) :
    isEmitIdEv id (invokeEff hv) = false := by
  cases hv <;> rfl

/-- Claim C6: when a binding's callback is the only subscription the engine
holds for a chord string and its handler resolves to something invocable, one
firing of the chord produces exactly the trace: handler invocation, then one
`keymap:emit` trigger, then one `keymap:emit:<id>` trigger, the two triggers
carrying the same payload `(id, matched shortcut, raw event)`; the counts of
`keymap:emit` and `keymap:emit:<id>` triggers in the trace are both exactly
one. -/
theorem C6_notification_fanout (reg : String → HVal) (s : KState)
    (chord sc : String) (e : Nat) (cb : Callback)
    (hsub : s.engine.filter (fun p => p.1 == chord) = [(chord, cb)])
    (hinv : isInvocable (resolveHandler reg cb.handler) = true) :
    (fireEngine reg chord sc e s.engine).2 =
      [invokeEff (resolveHandler reg cb.handler),
       Eff.busTrigger "keymap:emit" (Payload.pEmit cb.id sc e),
       Eff.busTrigger ("keymap:emit:" ++ cb.id) (Payload.pEmit cb.id sc e)] ∧
    (fireEngine reg chord sc e s.engine).2.countP isEmitEv = 1 ∧
    (fireEngine reg chord sc e s.engine).2.countP (isEmitIdEv cb.id) = 1 := by
  have heffs : (fireEngine reg chord sc e s.engine).2 =
      [invokeEff (resolveHandler reg cb.handler),
       Eff.busTrigger "keymap:emit" (Payload.pEmit cb.id sc e),
       Eff.busTrigger ("keymap:emit:" ++ cb.id) (Payload.pEmit cb.id sc e)] := by
    rw [fireEngine_effs, hsub]
    simp [fireCallback_invocable reg cb sc e hinv]
  have h3 : (("keymap:emit:" ++ cb.id) == "keymap:emit") = false :=
    beq_eq_false_iff_ne.mpr (emit_names_ne cb.id)
  have h4 : (("keymap:emit" : String) == "keymap:emit:" ++ cb.id) = false :=
    beq_eq_false_iff_ne.mpr (fun hh => emit_names_ne cb.id hh.symm)
  refine ⟨heffs, ?_, ?_⟩
  · rw [heffs]
    cases hres : resolveHandler reg cb.handler with
    | vstr s2 => rw [hres] at hinv; simp [isInvocable] at hinv
    | vundef => rw [hres] at hinv; simp [isInvocable] at hinv
    | vfun n => simp [invokeEff, isEmitEv, List.countP_cons, h3]
    | vobj n => simp [invokeEff, isEmitEv, List.countP_cons, h3]
  · rw [heffs]
    cases hres : resolveHandler reg cb.handler with
    | vstr s2 => rw [hres] at hinv; simp [isInvocable] at hinv
    | vundef => rw [hres] at hinv; simp [isInvocable] at hinv
    | vfun n => simp [invokeEff, isEmitIdEv, List.countP_cons, h4]
    | vobj n => simp [invokeEff, isEmitIdEv, List.countP_cons, h4]

/-- Registry contents for the C6 witness: `core:undo` is a run-capable
command object. -/
def c6Reg : String → HVal :=
  fun s => if s = "core:undo" then HVal.vobj 1 else HVal.vundef

/-- State for the C6 witness: the default undo binding is installed. -/
def c6S : KState :=
  ⟨[("core:undo", ⟨"core:undo", "⌘+z, ctrl+z", HVal.vstr "core:undo"⟩)],
   [("⌘+z, ctrl+z", ⟨"core:undo", HVal.vstr "core:undo"⟩)]⟩

theorem C6_notification_fanout_witness :
    (fireEngine c6Reg "⌘+z, ctrl+z" "ctrl+z" 0 c6S.engine).2 =
      [invokeEff (resolveHandler c6Reg (HVal.vstr "core:undo")),
       Eff.busTrigger "keymap:emit" (Payload.pEmit "core:undo" "ctrl+z" 0),
       Eff.busTrigger ("keymap:emit:" ++ "core:undo")
         (Payload.pEmit "core:undo" "ctrl+z" 0)] ∧
    (fireEngine c6Reg "⌘+z, ctrl+z" "ctrl+z" 0 c6S.engine).2.countP isEmitEv = 1 ∧
    (fireEngine c6Reg "⌘+z, ctrl+z" "ctrl+z" 0 c6S.engine).2.countP
      (isEmitIdEv "core:undo") = 1 := by
  exact C6_notification_fanout c6Reg c6S "⌘+z, ctrl+z" "ctrl+z" 0
    ⟨"core:undo", HVal.vstr "core:undo"⟩ (by decide) (by decide)

/-- Registry contents mapping `cmd:foo` to command object 1. -/
def c3RegA : String → HVal :=
  fun s => if s = "cmd:foo" then HVal.vobj 1 else HVal.vundef

/-- Registry contents after `cmd:foo` has been replaced by command object 2. -/
def c3RegB : String → HVal :=
  fun s => if s = "cmd:foo" then HVal.vobj 2 else HVal.vundef

/-- The callback installed by `add('a', keys, 'cmd:foo')`. -/
def c3Cb : Callback := ⟨"a", HVal.vstr "cmd:foo"⟩

/-- Claim C3 counterexample: the claim says a string handler is resolved
through the command registry at every firing, so replacing the command
between two firings makes the next firing invoke the replacement. On the
code this fails: the callback reassigns its captured `handler` variable to
the resolved command at the first firing, so after firing once while
`cmd:foo` maps to command 1, replacing `cmd:foo` with command 2 and firing
again still invokes command 1 and never invokes command 2. -/
theorem C3_every_firing_counterexample :
    Eff.invokeRun 1 ∈
      (fireCallback c3RegB (fireCallback c3RegA c3Cb "ctrl+f" 0).1
        "ctrl+f" 1).2 ∧
    Eff.invokeRun 2 ∉
      (fireCallback c3RegB (fireCallback c3RegA c3Cb "ctrl+f" 0).1
        "ctrl+f" 1).2 := by
  decide

/-- Claim C3 as amended: for a binding whose handler is a string, the
dispatch callback resolves the string through the command registry at the
first firing (fire time, not bind time) — so a replacement made before the
callback has ever fired does take effect — but the resolved value is then
cached in the closure, so every later firing invokes the value resolved at
the first firing, whatever the registry holds by then. -/
theorem C3_first_fire_resolution_then_cached (reg regNext : String → HVal)
    (cid bid sc sc2 : String) (e e2 : Nat)
    (hinv : isInvocable (reg cid) = true) :
    (fireCallback reg ⟨bid, HVal.vstr cid⟩ sc e).1 = ⟨bid, reg cid⟩ ∧
    (fireCallback reg ⟨bid, HVal.vstr cid⟩ sc e).2.head? =
      some (invokeEff (reg cid)) ∧
    (fireCallback regNext (fireCallback reg ⟨bid, HVal.vstr cid⟩ sc e).1
      sc2 e2).2.head? = some (invokeEff (reg cid)) := by
  have hres : resolveHandler reg (HVal.vstr cid) = reg cid := rfl
  have hstate : (fireCallback reg ⟨bid, HVal.vstr cid⟩ sc e).1 =
      ⟨bid, reg cid⟩ := by
    rw [fireCallback_state]
    simp [hres]
  have hnres : resolveHandler regNext (reg cid) = reg cid := by
    cases hc : reg cid with
    | vstr s2 => rw [hc] at hinv; simp [isInvocable] at hinv
    | vfun n => rfl
    | vobj n => rfl
    | vundef => rw [hc] at hinv; simp [isInvocable] at hinv
  refine ⟨hstate, ?_, ?_⟩
  · rw [fireCallback_head]
    simp [hres]
  · rw [hstate, fireCallback_head]
    simp [hnres]

theorem C3_first_fire_resolution_then_cached_witness :
    (fireCallback c3RegA ⟨"a", HVal.vstr "cmd:foo"⟩ "ctrl+f" 0).1 =
      ⟨"a", c3RegA "cmd:foo"⟩ ∧
    (fireCallback c3RegA ⟨"a", HVal.vstr "cmd:foo"⟩ "ctrl+f" 0).2.head? =
      some (invokeEff (c3RegA "cmd:foo")) ∧
    (fireCallback c3RegB (fireCallback c3RegA ⟨"a", HVal.vstr "cmd:foo"⟩
      "ctrl+f" 0).1 "ctrl+f" 1).2.head? =
      some (invokeEff (c3RegA "cmd:foo")) := by
  exact C3_first_fire_resolution_then_cached c3RegA c3RegB "cmd:foo" "a"
    "ctrl+f" "ctrl+f" 0 1 (by decide)

/-- Claim C4: `add(id, keys, c)` with a command-id string installs the
subscription with the still-unresolved string in its closure (the command
registry is never consulted during `add`), and if `c` is registered in the
command registry by the time `keys` first fires, that firing invokes the
newly registered command: resolution happens at fire time, not at add
time. -/
theorem C4_lazy_handler_resolution (s : KState) (id keys cid : String)
    (reg : String → HVal) (sc : String) (e : Nat)
    (hinv : isInvocable (reg cid) = true) :
    (addOp s id keys (HVal.vstr cid)).1.engine.getLast? =
      some (keys, (⟨id, HVal.vstr cid⟩ : Callback)) ∧
    invokeEff (reg cid) ∈
      (fireEngine reg keys sc e (addOp s id keys (HVal.vstr cid)).1.engine).2 := by
  constructor
  · rw [addOp_engine]
    exact List.getLast?_concat _
  · rw [addOp_engine, fireEngine_effs, List.filter_append]
    have hself : List.filter (fun p => p.1 == keys)
        [(keys, (⟨id, HVal.vstr cid⟩ : Callback))] =
        [(keys, (⟨id, HVal.vstr cid⟩ : Callback))] := by
      simp
    rw [hself, List.map_append, List.flatten_append]
    apply List.mem_append_right
    have hres : resolveHandler reg (HVal.vstr cid) = reg cid := rfl
    have hfc := fireCallback_invocable reg ⟨id, HVal.vstr cid⟩ sc e
      (by rw [hres]; exact hinv)
    simp only [List.map_cons, List.map_nil, List.flatten_cons, List.flatten_nil,
      List.append_nil, hfc, hres]
    exact List.mem_cons_self _ _

/-- Registry contents for the C4 witness: `cmd:late` registered after the
`add`, mapping to command object 7. -/
def c4Reg : String → HVal :=
  fun s => if s = "cmd:late" then HVal.vobj 7 else HVal.vundef

theorem C4_lazy_handler_resolution_witness :
    (addOp initState "b" "ctrl+l" (HVal.vstr "cmd:late")).1.engine.getLast? =
      some ("ctrl+l", (⟨"b", HVal.vstr "cmd:late"⟩ : Callback)) ∧
    invokeEff (c4Reg "cmd:late") ∈
      (fireEngine c4Reg "ctrl+l" "ctrl+l" 0
        (addOp initState "b" "ctrl+l" (HVal.vstr "cmd:late")).1.engine).2 := by
  exact C4_lazy_handler_resolution initState "b" "ctrl+l" "cmd:late" c4Reg
    "ctrl+l" 0 (by decide)

/-- Claim C8: construction installs no bindings; with no caller overrides the
merged configuration keeps the four built-in defaults; the explicit load step
then seeds, via `add` in mapping-iteration order, exactly the four default
bindings — undo, redo, copy, paste — each with its documented chord string
and with a handler equal to the command-id string that is its own id. -/
theorem C8_default_seeding :
    initState.keymaps = [] ∧
    initConfig none = configDefDefaults ∧
    (onLoad (initConfig none) initState).keymaps =
      [("core:undo", ⟨"core:undo", "⌘+z, ctrl+z", HVal.vstr "core:undo"⟩),
       ("core:redo",
        ⟨"core:redo", "⌘+shift+z, ctrl+shift+z", HVal.vstr "core:redo"⟩),
       ("core:copy", ⟨"core:copy", "⌘+c, ctrl+c", HVal.vstr "core:copy"⟩),
       ("core:paste", ⟨"core:paste", "⌘+v, ctrl+v", HVal.vstr "core:paste"⟩)] ∧
    getOp (onLoad (initConfig none) initState) "core:undo" =
      some ⟨"core:undo", "⌘+z, ctrl+z", HVal.vstr "core:undo"⟩ ∧
    getOp (onLoad (initConfig none) initState) "core:redo" =
      some ⟨"core:redo", "⌘+shift+z, ctrl+shift+z", HVal.vstr "core:redo"⟩ ∧
    getOp (onLoad (initConfig none) initState) "core:copy" =
      some ⟨"core:copy", "⌘+c, ctrl+c", HVal.vstr "core:copy"⟩ ∧
    getOp (onLoad (initConfig none) initState) "core:paste" =
      some ⟨"core:paste", "⌘+v, ctrl+v", HVal.vstr "core:paste"⟩ := by
  decide

end Keymaps
